import Mathlib

/-!
Verification of the daily-intervals scheduler (src/dailyIntervals.js).

The source works on nanosecond timestamps represented as JavaScript BigInt
values; we embed them as `ℤ`.  JavaScript BigInt division and remainder
truncate toward zero, which is `Int.tdiv` / `Int.tmod`.

The Temporal API calls (`withPlainTime`, `.hour`, `.minute`,
`.epochNanoseconds`, `.add`) are interpreted in a fixed zero-offset time
zone (UTC) with no daylight-saving transitions, so an absolute instant and
its wall clock coincide and `getDaylightSavingsOffset()` returns 0 (the
January and July offsets are equal).  All scheduler logic is otherwise
translated verbatim from the source.
-/

namespace DailyIntervals

/-- number of ns in a min (source line 9). -/
def conversionFactor : ℤ := 60 * 1000 * 1000 * 1000

/-- number of ns in a day (source line 10). -/
def nsInADay : ℤ := conversionFactor * 60 * 24

/-- converts hrs and mins to ns (source `convertTimeToNs`). -/
def convertTimeToNs (hrs mins : ℤ) : ℤ :=
  (60 * hrs + mins) * conversionFactor

/-- result type of `convertNsToHrAndMins`: an hour and minute pair. -/
structure HrMin where
  hrs : ℤ
  mins : ℤ
deriving Repr, DecidableEq

/-- converts ns to hrs and mins (source `convertNsToHrAndMins`); BigInt
division and remainder truncate toward zero. -/
def convertNsToHrAndMins (ns : ℤ) : HrMin :=
  let mins := ns.tdiv conversionFactor
  ⟨mins.tdiv 60, mins.tmod 60⟩

/-- converts mins to ns (source `convertMinsToNs`). -/
def convertMinsToNs (mins : ℤ) : ℤ :=
  conversionFactor * mins

/-- calculates the interval time based on a given current time, interval
amount, and the interval starting time (source `formula`, lines 93-122).
`func` is applied to the delta before the truncating BigInt division. -/
def formula (currentTime interval epoch : ℤ) (func : ℤ → ℤ) : ℤ :=
  ((func (currentTime - epoch)).tdiv interval) * interval + epoch

/-- the `func` argument that `createTimeInterval` passes to `formula`
(source lines 218-225): for negative deltas, return the nearest interval. -/
def nextIntervalFunc (interval n : ℤ) : ℤ :=
  if 0 ≤ n then n + interval else n

/-- the composite next-grid-point computation used by `createTimeInterval`
before DST adjustment: `formula` with `nextIntervalFunc`. -/
def nextGridPoint (currentTime interval epoch : ℤ) : ℤ :=
  formula currentTime interval epoch (nextIntervalFunc interval)

/-- the reference definition of the grid computation written in the spec
(section 4.1), with floor division (`Int.fdiv`) exactly as its words say:
`n = floor(delta / interval) + 1` if `delta ≥ 0`, else
`n = floor(delta / interval)`; result `n * interval + anchor`. -/
def nextGridPointSpec (current anchor interval : ℤ) : ℤ :=
  let delta := current - anchor
  let n := if 0 ≤ delta then delta.fdiv interval + 1 else delta.fdiv interval
  n * interval + anchor

/-! Interval normalization in `setDailyInterval` (source lines 319-324):
`if (interval < 1) { interval = 1; } interval = convertMinsToNs(BigInt(interval));` -/

/-- the clamp performed at the top of `setDailyInterval`. -/
def normalizeInterval (interval : ℤ) : ℤ :=
  if interval < 1 then 1 else interval

/-- the nanosecond interval `setDailyInterval` hands to the scheduling core;
all downstream behavior depends on the interval argument only through this
value. -/
def setDailyIntervalNs (interval : ℤ) : ℤ :=
  convertMinsToNs (normalizeInterval interval)

/-! The ID counter (source lines 6 and 332): `let newID = 1;` and
`return newID++;` — each call returns the current counter and then
increments it. -/

/-- the ID counter state after `n` calls to `setDailyInterval`, starting
from the module initialization `let newID = 1`. -/
def newIDAfter : Nat → ℤ
  | 0 => 1
  | n + 1 => newIDAfter n + 1

/-- the ID returned by call number `n` (0-based): `newID++` returns the
value before the increment. -/
def returnedID (n : Nat) : ℤ :=
  newIDAfter n

/-! The cancellation registry (source lines 4, 340-343).  The JavaScript
`Map` from ids to timeout handles is embedded as a function
`ℤ → Option ℕ`; `clearDailyInterval` calls `clearTimeout(IDs.get(ID))`
(a no-op on the timer bookkeeping of other entries, and a no-op entirely
when the id is absent, since `Map.get` yields `undefined`) and then
`IDs.delete(ID)`. -/

/-- the registry after `clearDailyInterval ID`: the entry for `ID` is
removed; nothing else is touched. -/
def clearDailyInterval (registry : ℤ → Option ℕ) (ID : ℤ) : ℤ → Option ℕ :=
  fun j => if j = ID then none else registry j

/-! The clock model.

The remaining operations call the Temporal API on zoned date-times.  We
interpret them in a fixed zero-offset zone (UTC) with no daylight-saving
transitions: an instant `t : ℤ` (epoch nanoseconds) has civil day start
`t - t % nsInADay` and time-of-day `t % nsInADay`, where `%` is the
mathematical (floor/Euclidean) remainder that calendars use.  In this zone
`getDaylightSavingsOffset()` (source lines 142-156) returns 0, because the
January and July UTC offsets coincide. -/

/-- the start of the civil day containing instant `t` in the zero-offset
zone. -/
def dayStart (t : ℤ) : ℤ :=
  t - t % nsInADay

/-- the `.hour` field of instant `t` in the zero-offset zone. -/
def hourOf (t : ℤ) : ℤ :=
  t % nsInADay / conversionFactor / 60

/-- the `.minute` field of instant `t` in the zero-offset zone. -/
def minuteOf (t : ℤ) : ℤ :=
  t % nsInADay / conversionFactor % 60

/-- returns the time (hours and minutes) in ns (source `getTimeInNs`),
in the zero-offset zone. -/
def getTimeInNs (t : ℤ) : ℤ :=
  convertTimeToNs (hourOf t) (minuteOf t)

/-- `withPlainTime {hour, minute}` on instant `t` in the zero-offset zone:
keep the civil date, replace the time-of-day (seconds and below become 0). -/
def withPlainTime (t hour minute : ℤ) : ℤ :=
  dayStart t + convertTimeToNs hour minute

/-- the epoch record built by `createEpoch` (source lines 238-249). -/
structure Epoch where
  UTCValue : ℤ
  hrs : ℤ
  mins : ℤ
deriving Repr, DecidableEq

/-- `createEpoch` (source lines 238-249): the current day with the given
wall-clock time, in the zero-offset zone; `now` stands for
`Temporal.Now.zonedDateTimeISO()`. -/
def createEpoch (hrs mins now : ℤ) : Epoch :=
  ⟨withPlainTime now hrs mins, hrs, mins⟩

/-- an epoch whose stored hour and minute are a valid wall-clock time that
agrees with the time-of-day of its absolute value, as `createEpoch`
produces for in-range arguments. -/
def Epoch.wellFormed (e : Epoch) : Prop :=
  0 ≤ e.hrs ∧ e.hrs < 24 ∧ 0 ≤ e.mins ∧ e.mins < 60 ∧
    e.UTCValue % nsInADay = convertTimeToNs e.hrs e.mins

/-- `t` lies on the periodic grid pinned at `anchor` with spacing
`interval`. -/
def isGridPoint (t anchor interval : ℤ) : Prop :=
  ∃ k : ℤ, t = anchor + k * interval

/-- `t` is the smallest grid point that is at or after `now` — the state
invariant claimed by the spec for `nextFireInstant`. -/
def isSmallestGridPointGE (t anchor interval now : ℤ) : Prop :=
  isGridPoint t anchor interval ∧ now ≤ t ∧
    ∀ u : ℤ, isGridPoint u anchor interval → now ≤ u → t ≤ u

/-- the `correctIntervalTime` computed at the top of `adjustIntervalTime`
(source lines 168-181): grid math on the time-of-day with the interval
taken modulo one day (BigInt `%`, truncating — both operands are
non-negative here), or the epoch time-of-day when the interval is a whole
number of days. -/
def correctIntervalTime (intervalTime interval : ℤ) (epoch : Epoch) : HrMin :=
  let adjustedInterval := interval.tmod nsInADay
  if 0 < adjustedInterval then
    convertNsToHrAndMins (formula (getTimeInNs intervalTime) adjustedInterval
      (convertTimeToNs epoch.hrs epoch.mins) (fun n => n))
  else
    ⟨epoch.hrs, epoch.mins⟩

/-- the `intervalTime.withPlainTime(...)` rewrite of `adjustIntervalTime`
(source lines 183-186): the candidate with its wall-clock hour and minute
replaced by `correctIntervalTime`. -/
def adjustRewrite (intervalTime interval : ℤ) (epoch : Epoch) : ℤ :=
  withPlainTime intervalTime
    (correctIntervalTime intervalTime interval epoch).hrs
    (correctIntervalTime intervalTime interval epoch).mins

/-- `adjustIntervalTime` (source lines 165-208) in the zero-offset zone.
The source recurses on itself after advancing by one interval; the
recursion is embedded with explicit fuel, `none` meaning the fuel ran out
before the source recursion finished.  `getDaylightSavingsOffset()` is 0
in this zone, so the offset addition (source lines 192-196) is the
identity. -/
def adjustIntervalTime (fuel : Nat) (intervalTime interval : ℤ)
    (epoch : Epoch) (now : ℤ) : Option ℤ :=
  match fuel with
  | 0 => none
  | fuel + 1 =>
    let it1 := adjustRewrite intervalTime interval epoch
    if it1 < now then
      let it2 := it1 + 0
      if it2 ≤ now then
        adjustIntervalTime fuel (it2 + interval) interval epoch now
      else
        some it2
    else
      some it1

/-- `createTimeInterval` (source lines 217-229): the coarse grid point
from `formula` on absolute epoch nanoseconds, then the DST adjustment. -/
def createTimeInterval (fuel : Nat) (interval : ℤ) (epoch : Epoch)
    (now : ℤ) : Option ℤ :=
  adjustIntervalTime fuel (nextGridPoint now interval epoch.UTCValue)
    interval epoch now

/-- one execution of the timer-expiry handler armed by `customInterval`
(source lines 278-305), at observation instant `now`: returns the new
`(intervalTime, epoch)` state and how many times the callback was invoked
(0 or 1). -/
def customIntervalStep (fuel : Nat) (interval intervalTime : ℤ)
    (epoch : Epoch) (now : ℤ) : Option (ℤ × Epoch × Nat) :=
  if intervalTime ≤ now then
    let advanced := intervalTime + interval
    if advanced < now then
      let epoch2 := createEpoch epoch.hrs epoch.mins now
      (createTimeInterval fuel interval epoch2 now).map (fun t => (t, epoch2, 0))
    else
      (adjustIntervalTime fuel advanced interval epoch now).map
        (fun t => (t, epoch, 1))
  else
    if interval < intervalTime - now then
      let epoch2 := createEpoch epoch.hrs epoch.mins now
      (createTimeInterval fuel interval epoch2 now).map (fun t => (t, epoch2, 0))
    else
      some (intervalTime, epoch, 0)

/-! Basic facts about the grid computation. -/

lemma nextGridPoint_eq_of_nonneg {currentTime interval epoch : ℤ}
    (hI : 0 < interval) (h : 0 ≤ currentTime - epoch) :
    nextGridPoint currentTime interval epoch =
      ((currentTime - epoch).tdiv interval + 1) * interval + epoch := by
  unfold nextGridPoint formula nextIntervalFunc
  rw [if_pos h]
  have h1 : (currentTime - epoch + interval).tdiv interval =
      (currentTime - epoch + interval) / interval :=
    Int.tdiv_eq_ediv (by omega) (le_of_lt hI)
  have h2 : (currentTime - epoch).tdiv interval = (currentTime - epoch) / interval :=
    Int.tdiv_eq_ediv h (le_of_lt hI)
  have h3 : (currentTime - epoch + 1 * interval) / interval =
      (currentTime - epoch) / interval + 1 :=
    Int.add_mul_ediv_right _ 1 (ne_of_gt hI)
  rw [h1, h2]
  rw [one_mul] at h3
  rw [h3]

lemma nextGridPoint_eq_of_neg {currentTime interval epoch : ℤ}
    (h : currentTime - epoch < 0) :
    nextGridPoint currentTime interval epoch =
      ((currentTime - epoch).tdiv interval) * interval + epoch := by
  unfold nextGridPoint formula nextIntervalFunc
  rw [if_neg (by omega)]

/-- negating the dividend negates the truncating remainder. -/
lemma tmod_neg_dividend (a b : ℤ) : (-a).tmod b = -(a.tmod b) := by
  have h1 := Int.tmod_add_tdiv a b
  have h2 := Int.tmod_add_tdiv (-a) b
  rw [Int.neg_tdiv a b] at h2
  linarith

/-- the contract of the grid computation: the result lies in the window
`[current, current + interval]`; the upper bound is attained exactly when
the current instant is on the grid with a non-negative delta. -/
lemma nextGridPoint_bounds {currentTime interval epoch : ℤ} (hI : 0 < interval) :
    currentTime ≤ nextGridPoint currentTime interval epoch ∧
      nextGridPoint currentTime interval epoch ≤ currentTime + interval := by
  rcases le_or_lt 0 (currentTime - epoch) with h | h
  · rw [nextGridPoint_eq_of_nonneg hI h]
    have hmod := Int.tmod_add_tdiv (currentTime - epoch) interval
    have hm0 : 0 ≤ (currentTime - epoch).tmod interval := Int.tmod_nonneg _ h
    have hm1 : (currentTime - epoch).tmod interval < interval :=
      Int.tmod_lt_of_pos _ hI
    have key : ((currentTime - epoch).tdiv interval + 1) * interval + epoch =
        currentTime + interval - (currentTime - epoch).tmod interval := by
      linear_combination hmod
    constructor <;> linarith [key]
  · rw [nextGridPoint_eq_of_neg h]
    have hmod := Int.tmod_add_tdiv (currentTime - epoch) interval
    have hneg := tmod_neg_dividend (currentTime - epoch) interval
    have hm0 : 0 ≤ (-(currentTime - epoch)).tmod interval :=
      Int.tmod_nonneg _ (by omega)
    have hm1 : (-(currentTime - epoch)).tmod interval < interval :=
      Int.tmod_lt_of_pos _ hI
    have key : ((currentTime - epoch).tdiv interval) * interval + epoch =
        currentTime - (currentTime - epoch).tmod interval := by
      linear_combination hmod
    constructor <;> linarith [key, hneg, hm0, hm1]

/-- the result of the grid computation is a grid point: it differs from
the anchor by an integer multiple of the interval. -/
lemma nextGridPoint_isGrid (currentTime interval epoch : ℤ) :
    isGridPoint (nextGridPoint currentTime interval epoch) epoch interval := by
  exact ⟨(nextIntervalFunc interval (currentTime - epoch)).tdiv interval, by
    unfold nextGridPoint formula; ring⟩

/-- C1: the nearest-future property as the spec states it, with the strict
inequality `R − I < T`, fails: at anchor 0, interval 1, instant 0 the
computation returns 1 and `1 − 1 < 0` is false. -/
theorem c1_counterexample :
    ¬ ((0 : ℤ) ≤ nextGridPoint 0 1 0 ∧ nextGridPoint 0 1 0 - 1 < 0) := by
  decide

/-- C1 (amended): for every anchor `A`, interval `I ≥ 1` and instant `T`,
the next-grid-point computation returns `R` with `R ≥ T` and
`R − I ≤ T` (the second bound is attained, rather than strict, exactly when
`T` itself lies on the grid at or after the anchor). -/
theorem c1_nearest_future (A I T : ℤ) (hI : 1 ≤ I) :
    T ≤ nextGridPoint T I A ∧ nextGridPoint T I A - I ≤ T := by
  have h := @nextGridPoint_bounds T I A (by omega : (0:ℤ) < I)
  omega

/-- C1 witness: the amended property instantiated at anchor 0, interval 2,
instant 7, where the computation yields 8. -/
theorem c1_nearest_future_witness :
    (1 : ℤ) ≤ 2 ∧ ((7 : ℤ) ≤ nextGridPoint 7 2 0 ∧ nextGridPoint 7 2 0 - 2 ≤ 7) :=
  ⟨by decide, c1_nearest_future 0 2 7 (by decide)⟩

/-- C2: the implementation does not equal the floor-division reference
definition of the spec: at current 0, anchor 5, interval 2 the
implementation (BigInt division, truncating toward zero) returns 1 while
the floor-division reference returns −1. -/
theorem c2_counterexample :
    nextGridPoint 0 2 5 = 1 ∧ nextGridPointSpec 0 5 2 = -1 ∧
      nextGridPoint 0 2 5 ≠ nextGridPointSpec 0 5 2 := by
  refine ⟨by decide, by decide, by decide⟩

/-- C2 (amended): the implementation equals the reference definition with
the floor division replaced by division truncating toward zero (the actual
JavaScript BigInt semantics): for every current, anchor and interval ≥ 1,
with `delta = current − anchor`, it returns `n·interval + anchor` where
`n = trunc(delta / interval) + 1` if `delta ≥ 0` and
`n = trunc(delta / interval)` otherwise.  For `delta ≥ 0` truncation agrees
with floor; for `delta < 0` it rounds toward zero (ceiling). -/
theorem c2_grid_formula (current anchor I : ℤ) (hI : 1 ≤ I) :
    nextGridPoint current I anchor =
      (if 0 ≤ current - anchor
        then (current - anchor).tdiv I + 1
        else (current - anchor).tdiv I) * I + anchor := by
  rcases le_or_lt 0 (current - anchor) with h | h
  · rw [if_pos h]
    exact nextGridPoint_eq_of_nonneg (by omega) h
  · rw [if_neg (by omega)]
    exact nextGridPoint_eq_of_neg h

/-- C2 witness: the amended equality instantiated at current 0, anchor 5,
interval 2 (a negative delta, where truncation and floor differ). -/
theorem c2_grid_formula_witness :
    (1 : ℤ) ≤ 2 ∧ nextGridPoint 0 2 5 =
      (if (0 : ℤ) ≤ 0 - 5 then (0 - 5 : ℤ).tdiv 2 + 1 else (0 - 5 : ℤ).tdiv 2) * 2 + 5 :=
  ⟨by decide, c2_grid_formula 0 5 2 (by decide)⟩

/-- C8: an interval argument less than 1 is silently normalized to 1: the
clamp yields exactly 1, and the nanosecond interval driving the schedule is
identical to the one produced by passing 1.  The embedded operation is a
total function, so no input is rejected. -/
theorem c8_clamp_interval (interval : ℤ) (h : interval < 1) :
    normalizeInterval interval = 1 ∧
      setDailyIntervalNs interval = setDailyIntervalNs 1 := by
  unfold setDailyIntervalNs normalizeInterval
  rw [if_pos h]
  exact ⟨rfl, rfl⟩

/-- C8 witness: the clamp at the concrete argument −5. -/
theorem c8_clamp_interval_witness :
    (-5 : ℤ) < 1 ∧ (normalizeInterval (-5) = 1 ∧
      setDailyIntervalNs (-5) = setDailyIntervalNs 1) :=
  ⟨by decide, c8_clamp_interval (-5) (by decide)⟩

/-- C9: in any sequence of calls in one process the returned ids start at
1 and each id is the call index plus one, hence every id is a positive
integer and the sequence is strictly increasing (so ids are unique for the
process lifetime). -/
theorem c9_ids_monotone (n : Nat) :
    returnedID 0 = 1 ∧ 0 < returnedID n ∧
      (∀ m : Nat, m < n → returnedID m < returnedID n) := by
  have hval : ∀ k : Nat, returnedID k = 1 + (k : ℤ) := by
    intro k
    induction k with
    | zero => rfl
    | succ k ih =>
      show newIDAfter k + 1 = 1 + ((k : ℤ) + 1)
      have : newIDAfter k = 1 + (k : ℤ) := ih
      omega
  refine ⟨rfl, ?_, ?_⟩
  · rw [hval n]; positivity
  · intro m hm
    rw [hval m, hval n]
    omega

/-- C9 witness: after three calls the ids are 1 < 2 < 3. -/
theorem c9_ids_monotone_witness :
    returnedID 0 = 1 ∧ 0 < returnedID 2 ∧ (1 : Nat) < 2 ∧ returnedID 1 < returnedID 2 := by
  have h := c9_ids_monotone 2
  exact ⟨h.1, h.2.1, by decide, h.2.2 1 (by decide)⟩

/-- C10: clearing an id that is not in the registry leaves the registry
unchanged (and raises nothing — the embedded operation is total), and for
every id, present or absent, every entry other than the cleared one is
preserved verbatim. -/
theorem c10_clear_noop (registry : ℤ → Option ℕ) (ID : ℤ) :
    (registry ID = none → clearDailyInterval registry ID = registry) ∧
      (∀ j : ℤ, j ≠ ID → clearDailyInterval registry ID j = registry j) := by
  constructor
  · intro habs
    funext j
    unfold clearDailyInterval
    by_cases hj : j = ID
    · rw [if_pos hj, hj, habs]
    · rw [if_neg hj]
  · intro j hj
    unfold clearDailyInterval
    rw [if_neg hj]

/-- C10 witness: on the concrete one-entry registry mapping 1 to handle 5,
clearing the absent id 2 is the identity, and entry 1 survives clearing
id 2. -/
theorem c10_clear_noop_witness :
    (clearDailyInterval (fun j => if j = 1 then some 5 else none) 2 = fun j => if j = 1 then some 5 else none) ∧
      clearDailyInterval (fun j => if j = 1 then some 5 else none) 2 1 = some 5 := by
  have h := c10_clear_noop (fun j => if j = 1 then some 5 else none) 2
  exact ⟨h.1 (by decide), h.2 1 (by decide)⟩

/-! Basic facts about the clock model. -/

lemma conversionFactor_pos : (0 : ℤ) < conversionFactor := by decide

lemma nsInADay_pos : (0 : ℤ) < nsInADay := by decide

lemma conversionFactor_dvd_nsInADay : conversionFactor ∣ nsInADay :=
  ⟨60 * 24, by decide⟩

lemma convertTimeToNs_dvd (hrs mins : ℤ) :
    conversionFactor ∣ convertTimeToNs hrs mins :=
  ⟨60 * hrs + mins, by unfold convertTimeToNs; ring⟩

lemma convertTimeToNs_nonneg {hrs mins : ℤ} (h1 : 0 ≤ hrs) (h3 : 0 ≤ mins) :
    0 ≤ convertTimeToNs hrs mins := by
  unfold convertTimeToNs
  have : (0 : ℤ) < conversionFactor := conversionFactor_pos
  positivity

lemma convertTimeToNs_lt_day {hrs mins : ℤ} (h2 : hrs < 24) (h4 : mins < 60) :
    convertTimeToNs hrs mins < nsInADay := by
  unfold convertTimeToNs nsInADay
  have h : 60 * hrs + mins < 60 * 24 := by omega
  have : (0 : ℤ) < conversionFactor := conversionFactor_pos
  nlinarith

lemma emod_day_nonneg (t : ℤ) : 0 ≤ t % nsInADay :=
  Int.emod_nonneg t (ne_of_gt nsInADay_pos)

lemma emod_day_lt (t : ℤ) : t % nsInADay < nsInADay :=
  Int.emod_lt_of_pos t nsInADay_pos

lemma dayStart_eq (t : ℤ) : dayStart t = nsInADay * (t / nsInADay) := by
  unfold dayStart
  linear_combination -Int.ediv_add_emod t nsInADay

/-- adding an in-range time-of-day to a day start produces an instant with
exactly that time-of-day. -/
lemma dayStart_add_emod (t x : ℤ) (h0 : 0 ≤ x) (h1 : x < nsInADay) :
    (dayStart t + x) % nsInADay = x := by
  rw [dayStart_eq]
  have h2 : (x + nsInADay * (t / nsInADay)) % nsInADay = x % nsInADay :=
    Int.add_mul_emod_self_left x nsInADay (t / nsInADay)
  calc (nsInADay * (t / nsInADay) + x) % nsInADay
      = (x + nsInADay * (t / nsInADay)) % nsInADay := by ring_nf
    _ = x % nsInADay := h2
    _ = x := Int.emod_eq_of_lt h0 h1

/-- converting a whole-minute count of nanoseconds to hours and minutes and
back is the identity. -/
lemma convertNsToHrAndMins_roundtrip {ns : ℤ} (h : conversionFactor ∣ ns) :
    convertTimeToNs (convertNsToHrAndMins ns).hrs (convertNsToHrAndMins ns).mins = ns := by
  unfold convertNsToHrAndMins convertTimeToNs
  have h60 : 60 * ((ns.tdiv conversionFactor).tdiv 60) + (ns.tdiv conversionFactor).tmod 60 =
      ns.tdiv conversionFactor := Int.tdiv_add_tmod (ns.tdiv conversionFactor) 60
  rw [h60]
  exact Int.tdiv_mul_cancel h

/-- the wall time read by `getTimeInNs` is the time-of-day truncated to
whole minutes. -/
lemma getTimeInNs_eq (t : ℤ) :
    getTimeInNs t = t % nsInADay / conversionFactor * conversionFactor := by
  unfold getTimeInNs hourOf minuteOf convertTimeToNs
  have h := Int.ediv_add_emod (t % nsInADay / conversionFactor) 60
  have : 60 * (t % nsInADay / conversionFactor / 60) +
      t % nsInADay / conversionFactor % 60 = t % nsInADay / conversionFactor := h
  rw [this]

lemma getTimeInNs_dvd (t : ℤ) : conversionFactor ∣ getTimeInNs t := by
  rw [getTimeInNs_eq]
  exact dvd_mul_left conversionFactor (t % nsInADay / conversionFactor)

lemma getTimeInNs_nonneg (t : ℤ) : 0 ≤ getTimeInNs t := by
  rw [getTimeInNs_eq]
  have h1 := emod_day_nonneg t
  have h2 := Int.ediv_nonneg h1 (le_of_lt conversionFactor_pos)
  exact mul_nonneg h2 (le_of_lt conversionFactor_pos)

lemma getTimeInNs_le (t : ℤ) : getTimeInNs t ≤ t % nsInADay := by
  rw [getTimeInNs_eq]
  exact Int.ediv_mul_le _ (ne_of_gt conversionFactor_pos)

lemma getTimeInNs_gt (t : ℤ) :
    t % nsInADay < getTimeInNs t + conversionFactor := by
  rw [getTimeInNs_eq]
  have h := Int.lt_ediv_add_one_mul_self (t % nsInADay) conversionFactor_pos
  nlinarith [h]

lemma getTimeInNs_lt_day (t : ℤ) : getTimeInNs t < nsInADay := by
  have h1 := getTimeInNs_le t
  have h2 := emod_day_lt t
  omega

/-- on a whole-minute instant the wall time equals the time-of-day
exactly. -/
lemma getTimeInNs_of_dvd {t : ℤ} (h : conversionFactor ∣ t) :
    getTimeInNs t = t % nsInADay := by
  rw [getTimeInNs_eq]
  have hdvd : conversionFactor ∣ t % nsInADay := by
    have h1 : t % nsInADay = t - nsInADay * (t / nsInADay) := by
      linear_combination Int.ediv_add_emod t nsInADay
    rw [h1]
    exact Int.dvd_sub h (Dvd.dvd.mul_right conversionFactor_dvd_nsInADay _)
  exact Int.ediv_mul_cancel hdvd

/-! Facts about the wall-clock rewrite performed by `adjustIntervalTime`. -/

lemma adjustRewrite_def (t I : ℤ) (e : Epoch) :
    adjustRewrite t I e = dayStart t +
      convertTimeToNs (correctIntervalTime t I e).hrs (correctIntervalTime t I e).mins := rfl

/-- `formula` with the identity step function subtracts the truncating
remainder of the delta. -/
lemma formula_id_eq (w ai te : ℤ) :
    formula w ai te (fun n => n) = w - (w - te).tmod ai := by
  unfold formula
  linear_combination Int.tdiv_add_tmod (w - te) ai

/-- the adjusted interval `interval % nsInADay` expressed through the
truncating division. -/
lemma tmod_day_eq (I : ℤ) :
    I.tmod nsInADay = I - nsInADay * (I.tdiv nsInADay) := by
  linear_combination Int.tdiv_add_tmod I nsInADay

lemma tmod_day_dvd {I : ℤ} (hconv : conversionFactor ∣ I) :
    conversionFactor ∣ I.tmod nsInADay := by
  rw [tmod_day_eq]
  exact Int.dvd_sub hconv (Dvd.dvd.mul_right conversionFactor_dvd_nsInADay _)

lemma tmod_day_le {I : ℤ} (hI : 0 ≤ I) : I.tmod nsInADay ≤ I := by
  rw [tmod_day_eq]
  have h1 : 0 ≤ I.tdiv nsInADay := Int.tdiv_nonneg hI (le_of_lt nsInADay_pos)
  nlinarith [nsInADay_pos]

/-- the wall-clock rewrite moves the candidate back by less than one
interval (and in particular never below `candidate − interval`): the
time-of-day grid snap drops less than `interval mod day`, and the
whole-day case rewrites within the candidate day. -/
lemma adjustRewrite_lb (t I : ℤ) (e : Epoch) (hI : 0 < I)
    (hconv : conversionFactor ∣ I) (h1 : 0 ≤ e.hrs) (h2 : e.hrs < 24)
    (h3 : 0 ≤ e.mins) (h4 : e.mins < 60) :
    t - I < adjustRewrite t I e := by
  have hconvle : conversionFactor ≤ I := Int.le_of_dvd hI hconv
  have hai0 : 0 ≤ I.tmod nsInADay := Int.tmod_nonneg _ (le_of_lt hI)
  have haiI : I.tmod nsInADay ≤ I := tmod_day_le (le_of_lt hI)
  have haiconv : conversionFactor ∣ I.tmod nsInADay := tmod_day_dvd hconv
  have hte0 : 0 ≤ convertTimeToNs e.hrs e.mins := convertTimeToNs_nonneg h1 h3
  have hw1 : getTimeInNs t ≤ t % nsInADay := getTimeInNs_le t
  have hw2 : t % nsInADay < getTimeInNs t + conversionFactor := getTimeInNs_gt t
  rcases lt_or_eq_of_le hai0 with hpos | hzero
  · -- sub-day adjusted interval: the time-of-day is snapped to the
    -- minutes-of-day grid
    rw [adjustRewrite_def]
    have hbranch : correctIntervalTime t I e =
        convertNsToHrAndMins (formula (getTimeInNs t) (I.tmod nsInADay)
          (convertTimeToNs e.hrs e.mins) (fun n => n)) := by
      unfold correctIntervalTime
      rw [if_pos hpos]
    rw [hbranch, formula_id_eq]
    have hdvdm : conversionFactor ∣
        (getTimeInNs t - convertTimeToNs e.hrs e.mins).tmod (I.tmod nsInADay) := by
      have hx : (getTimeInNs t - convertTimeToNs e.hrs e.mins).tmod (I.tmod nsInADay) =
          (getTimeInNs t - convertTimeToNs e.hrs e.mins) -
            (I.tmod nsInADay) * ((getTimeInNs t - convertTimeToNs e.hrs e.mins).tdiv (I.tmod nsInADay)) := by
        linear_combination Int.tdiv_add_tmod
          (getTimeInNs t - convertTimeToNs e.hrs e.mins) (I.tmod nsInADay)
      rw [hx]
      exact Int.dvd_sub
        (Int.dvd_sub (getTimeInNs_dvd t) (convertTimeToNs_dvd e.hrs e.mins))
        (Dvd.dvd.mul_right haiconv _)
    have hdvdout : conversionFactor ∣
        (getTimeInNs t -
          (getTimeInNs t - convertTimeToNs e.hrs e.mins).tmod (I.tmod nsInADay)) :=
      Int.dvd_sub (getTimeInNs_dvd t) hdvdm
    rw [convertNsToHrAndMins_roundtrip hdvdout]
    unfold dayStart
    rcases le_or_lt (convertTimeToNs e.hrs e.mins) (getTimeInNs t) with hcase | hcase
    · have hm0 : 0 ≤ (getTimeInNs t - convertTimeToNs e.hrs e.mins).tmod (I.tmod nsInADay) :=
        Int.tmod_nonneg _ (by omega)
      have hm1 : (getTimeInNs t - convertTimeToNs e.hrs e.mins).tmod (I.tmod nsInADay) <
          I.tmod nsInADay := Int.tmod_lt_of_pos _ hpos
      have hmle : (getTimeInNs t - convertTimeToNs e.hrs e.mins).tmod (I.tmod nsInADay) ≤
          I.tmod nsInADay - conversionFactor := by
        rcases hdvdm with ⟨c, hc⟩
        rcases haiconv with ⟨d, hd⟩
        have hcd : c < d := by nlinarith [conversionFactor_pos]
        nlinarith [conversionFactor_pos]
      linarith
    · have hm2 : (getTimeInNs t - convertTimeToNs e.hrs e.mins).tmod (I.tmod nsInADay) =
          -((convertTimeToNs e.hrs e.mins - getTimeInNs t).tmod (I.tmod nsInADay)) := by
        have := tmod_neg_dividend
          (convertTimeToNs e.hrs e.mins - getTimeInNs t) (I.tmod nsInADay)
        have harg : -(convertTimeToNs e.hrs e.mins - getTimeInNs t) =
            getTimeInNs t - convertTimeToNs e.hrs e.mins := by ring
        rw [harg] at this
        exact this
      have hm3 : 0 ≤ (convertTimeToNs e.hrs e.mins - getTimeInNs t).tmod (I.tmod nsInADay) :=
        Int.tmod_nonneg _ (by omega)
      linarith
  · -- whole-day interval: the rewrite uses the epoch time-of-day on the
    -- candidate day
    have hbranch : correctIntervalTime t I e = ⟨e.hrs, e.mins⟩ := by
      unfold correctIntervalTime
      rw [if_neg (by omega)]
    rw [adjustRewrite_def, hbranch]
    have hdayI : nsInADay ≤ I := by
      have hdvd : nsInADay ∣ I := Int.dvd_of_tmod_eq_zero hzero.symm
      exact Int.le_of_dvd hI hdvd
    have := emod_day_lt t
    unfold dayStart
    simp only []
    linarith

/-- C7: on a whole-minute input where the candidate is far behind the
observed instant — which the source reaches when the system clock jumps
forward between its two readings of the current time — the recursive
advance step of `adjustIntervalTime` is taken 10 times, not at most 2:
with fuel 3 (one initial pass plus two recursive calls) the recursion has
not finished, while with fuel 11 it returns.  Candidate 0, interval 7
minutes, observed instant 70 minutes past the epoch. -/
theorem c7_counterexample :
    adjustIntervalTime 3 0 (7 * conversionFactor) ⟨0, 0, 0⟩ (70 * conversionFactor) = none ∧
      adjustIntervalTime 11 0 (7 * conversionFactor) ⟨0, 0, 0⟩ (70 * conversionFactor) =
        some (70 * conversionFactor) := by
  constructor <;> decide

/-- C7 (amended): the DST compensation recursion terminates on every input
whose interval is a whole positive number of minutes and whose epoch
carries a valid wall-clock time: every recursive step advances the
candidate by at least one nanosecond (in fact by at least
`interval − (interval mod day) + 1`), so any fuel exceeding
`now + interval − candidate` suffices.  The number of recursive steps is
therefore bounded for each input, but grows with `now − candidate` and is
not bounded by the constant 2. -/
theorem c7_termination (I : ℤ) (e : Epoch) (now : ℤ) (hI : 0 < I)
    (hconv : conversionFactor ∣ I) (h1 : 0 ≤ e.hrs) (h2 : e.hrs < 24)
    (h3 : 0 ≤ e.mins) (h4 : e.mins < 60) :
    ∀ (fuel : Nat) (t : ℤ), 0 < fuel → now + I < t + (fuel : ℤ) →
      (adjustIntervalTime fuel t I e now).isSome := by
  intro fuel
  induction fuel with
  | zero => intro t h0 _; exact absurd h0 (lt_irrefl 0)
  | succ n ih =>
    intro t _ hfuel
    have hrlb : t - I < adjustRewrite t I e :=
      adjustRewrite_lb t I e hI hconv h1 h2 h3 h4
    show (adjustIntervalTime (n + 1) t I e now).isSome
    rw [adjustIntervalTime]
    by_cases hlt : adjustRewrite t I e < now
    · rw [if_pos hlt, if_pos (by omega)]
      have hn : 0 < n := by
        by_contra hc
        have hn0 : n = 0 := by omega
        subst hn0
        push_cast at hfuel
        omega
      refine ih (adjustRewrite t I e + 0 + I) hn ?_
      push_cast at hfuel ⊢
      omega
    · rw [if_neg hlt]
      rfl

/-- C7 witness for the amended termination theorem: fuel 1 suffices for a
candidate one minute past the observation instant with a one-minute
interval. -/
theorem c7_termination_witness :
    (adjustIntervalTime 1 conversionFactor conversionFactor ⟨0, 0, 0⟩ 0).isSome := by
  have h := c7_termination conversionFactor ⟨0, 0, 0⟩ 0 (by decide) ⟨1, by decide⟩
    (by decide) (by decide) (by decide) (by decide) 1 conversionFactor
    (by decide) (by push_cast; decide)
  exact h

/-! When the interval is a whole number of minutes dividing one day, the
wall-clock rewrite of `adjustIntervalTime` fixes every grid point. -/

lemma Epoch.wellFormed.utc_dvd {e : Epoch} (he : e.wellFormed) :
    conversionFactor ∣ e.UTCValue := by
  obtain ⟨-, -, -, -, hU⟩ := he
  have h1 : e.UTCValue = nsInADay * (e.UTCValue / nsInADay) +
      convertTimeToNs e.hrs e.mins := by
    linear_combination -Int.ediv_add_emod e.UTCValue nsInADay + hU
  rw [h1]
  exact dvd_add (Dvd.dvd.mul_right conversionFactor_dvd_nsInADay _)
    (convertTimeToNs_dvd e.hrs e.mins)

lemma adjustRewrite_fixed (t I : ℤ) (e : Epoch) (hI : 0 < I)
    (hconv : conversionFactor ∣ I) (hday : I ∣ nsInADay) (he : e.wellFormed)
    (hgrid : isGridPoint t e.UTCValue I) :
    adjustRewrite t I e = t := by
  obtain ⟨k, hk⟩ := hgrid
  obtain ⟨hh1, hh2, hh3, hh4, hU⟩ := he
  have hconvt : conversionFactor ∣ t := by
    rw [hk]
    exact dvd_add (Epoch.wellFormed.utc_dvd ⟨hh1, hh2, hh3, hh4, hU⟩)
      (Dvd.dvd.mul_left hconv k)
  have hIday : I ≤ nsInADay := Int.le_of_dvd nsInADay_pos hday
  rcases lt_or_eq_of_le hIday with hlt | heq
  · -- sub-day interval: the minutes-of-day delta is an exact multiple of
    -- the interval, so the grid snap is the identity
    have haieq : I.tmod nsInADay = I := by
      rw [Int.tmod_eq_emod (le_of_lt hI) (le_of_lt nsInADay_pos)]
      exact Int.emod_eq_of_lt (le_of_lt hI) hlt
    have hbranch : correctIntervalTime t I e =
        convertNsToHrAndMins (formula (getTimeInNs t) (I.tmod nsInADay)
          (convertTimeToNs e.hrs e.mins) (fun n => n)) := by
      unfold correctIntervalTime
      rw [haieq, if_pos hI]
    have hwte : getTimeInNs t - convertTimeToNs e.hrs e.mins =
        k * I - nsInADay * (t / nsInADay - e.UTCValue / nsInADay) := by
      rw [getTimeInNs_of_dvd hconvt]
      have e1 := Int.ediv_add_emod t nsInADay
      have e2 := Int.ediv_add_emod e.UTCValue nsInADay
      have e3 : nsInADay * (e.UTCValue / nsInADay) + convertTimeToNs e.hrs e.mins =
          e.UTCValue := by rw [← hU]; exact e2
      linear_combination e1 - e3 + hk
    have hdvdwte : I ∣ (getTimeInNs t - convertTimeToNs e.hrs e.mins) := by
      rw [hwte]
      exact Int.dvd_sub (Dvd.dvd.mul_left dvd_rfl k) (Dvd.dvd.mul_right hday _)
    have hzero : (getTimeInNs t - convertTimeToNs e.hrs e.mins).tmod (I.tmod nsInADay) = 0 := by
      rw [haieq]
      exact Int.tmod_eq_zero_of_dvd hdvdwte
    rw [adjustRewrite_def, hbranch, formula_id_eq, hzero, sub_zero,
      convertNsToHrAndMins_roundtrip (getTimeInNs_dvd t),
      getTimeInNs_of_dvd hconvt]
    unfold dayStart
    ring
  · -- whole-day interval: rewrite places the epoch time-of-day on the
    -- candidate day, which is where the grid point already sits
    have hai0 : I.tmod nsInADay = 0 := by
      rw [← heq]
      exact Int.tmod_eq_zero_of_dvd dvd_rfl
    have hbranch : correctIntervalTime t I e = ⟨e.hrs, e.mins⟩ := by
      unfold correctIntervalTime
      rw [hai0, if_neg (lt_irrefl 0)]
    have htmod : t % nsInADay = convertTimeToNs e.hrs e.mins := by
      have h1 : t = e.UTCValue + nsInADay * k := by rw [hk, heq]; ring
      rw [h1]
      have h2 : (e.UTCValue + nsInADay * k) % nsInADay = e.UTCValue % nsInADay :=
        Int.add_mul_emod_self_left e.UTCValue nsInADay k
      rw [h2, hU]
    rw [adjustRewrite_def, hbranch]
    unfold dayStart
    rw [htmod]
    ring

/-- with positive fuel, `adjustIntervalTime` returns a grid point at or
after the observed instant unchanged. -/
lemma adjustIntervalTime_fixed (fuel : Nat) (t I : ℤ) (e : Epoch) (now : ℤ)
    (hfuel : 0 < fuel) (hI : 0 < I) (hconv : conversionFactor ∣ I)
    (hday : I ∣ nsInADay) (he : e.wellFormed)
    (hgrid : isGridPoint t e.UTCValue I) (hnow : now ≤ t) :
    adjustIntervalTime fuel t I e now = some t := by
  match fuel with
  | 0 => exact absurd hfuel (lt_irrefl 0)
  | n + 1 =>
    rw [adjustIntervalTime]
    rw [adjustRewrite_fixed t I e hI hconv hday he hgrid]
    rw [if_neg (by omega)]

lemma createEpoch_wellFormed (hrs mins now : ℤ) (h1 : 0 ≤ hrs) (h2 : hrs < 24)
    (h3 : 0 ≤ mins) (h4 : mins < 60) : (createEpoch hrs mins now).wellFormed := by
  refine ⟨h1, h2, h3, h4, ?_⟩
  show (withPlainTime now hrs mins) % nsInADay = convertTimeToNs hrs mins
  unfold withPlainTime
  exact dayStart_add_emod now _ (convertTimeToNs_nonneg h1 h3)
    (convertTimeToNs_lt_day h2 h4)

/-- with positive fuel and an interval that is a whole number of minutes
dividing one day, `createTimeInterval` returns exactly the coarse grid
point: the DST adjustment is the identity on it. -/
lemma createTimeInterval_start (fuel : Nat) (I : ℤ) (e : Epoch) (now : ℤ)
    (hfuel : 0 < fuel) (hI : 0 < I) (hconv : conversionFactor ∣ I)
    (hday : I ∣ nsInADay) (he : e.wellFormed) :
    createTimeInterval fuel I e now = some (nextGridPoint now I e.UTCValue) := by
  unfold createTimeInterval
  exact adjustIntervalTime_fixed fuel _ I e now hfuel hI hconv hday he
    (nextGridPoint_isGrid now I e.UTCValue)
    (nextGridPoint_bounds hI).1

/-- a grid point inside the window `[now, now + I]` is the smallest grid
point at or after `now`, provided `now` is not itself a grid point. -/
lemma grid_window_smallest {U I F now : ℤ} (hI : 0 < I)
    (hF : isGridPoint F U I) (hge : now ≤ F) (hle : F ≤ now + I)
    (hnot : ¬ isGridPoint now U I) :
    ∀ u : ℤ, isGridPoint u U I → now ≤ u → F ≤ u := by
  obtain ⟨k, hk⟩ := hF
  rintro u ⟨j, rfl⟩ hu
  by_contra hlt
  push_neg at hlt
  rw [hk] at hlt hge hle
  have hjk : j < k := by nlinarith
  have hle2 : U + j * I ≤ U + (k - 1) * I := by nlinarith
  have hun : U + j * I ≤ now := by nlinarith
  exact hnot ⟨j, (le_antisymm hun hu).symm⟩

/-- C3: the invariant fails on the code.  In the zero-offset zone with
anchor 00:00 (epoch absolute value 0), interval 7 minutes and observation
instant 00:01 of the following day, schedule start computes a
nextFireInstant 1447 minutes after the anchor.  1447 is not a multiple of
7, so the result is not even a grid point — the smallest grid point at or
after the observation instant is at 1442 minutes — because the DST
adjustment snaps the time-of-day to a minutes-of-day grid that does not
agree with the absolute grid when the interval does not divide a day. -/
theorem c3_counterexample :
    createTimeInterval 2 (7 * conversionFactor) ⟨0, 0, 0⟩ (1441 * conversionFactor) =
      some (1447 * conversionFactor) ∧
      ¬ isSmallestGridPointGE (1447 * conversionFactor) 0 (7 * conversionFactor)
        (1441 * conversionFactor) := by
  constructor
  · decide
  · rintro ⟨⟨k, hk⟩, -, -⟩
    unfold conversionFactor at hk
    omega

/-- C3 (amended): in the zero-offset zone, when the interval is a whole
number of minutes dividing one day, the invariant holds after every
operation, weakened to the window form forced by the counterexamples:
schedule start returns a nextFireInstant that is a grid point in
`[now, now + I]`, and one expiry-handler step from any grid-point state
(on-time advance, early wake, or either clock-jump rebuild) returns a
well-formed epoch and a nextFireInstant that is a grid point of that epoch
in `[now, now + I]`.  In both cases the result is the smallest grid point
at or after `now` whenever `now` is not itself a grid point; when `now` is
exactly on the grid the code may return `now + I` instead of `now`. -/
theorem c3_invariant (I : ℤ) (e : Epoch) (now t : ℤ) (hI : 0 < I)
    (hconv : conversionFactor ∣ I) (hday : I ∣ nsInADay) (he : e.wellFormed) :
    (∃ F, createTimeInterval 1 I e now = some F ∧ isGridPoint F e.UTCValue I ∧
      now ≤ F ∧ F ≤ now + I ∧
      (¬ isGridPoint now e.UTCValue I →
        isSmallestGridPointGE F e.UTCValue I now)) ∧
    (isGridPoint t e.UTCValue I →
      ∃ F e2 c, customIntervalStep 1 I t e now = some (F, e2, c) ∧
        e2.wellFormed ∧ isGridPoint F e2.UTCValue I ∧ now ≤ F ∧ F ≤ now + I ∧
        (¬ isGridPoint now e2.UTCValue I →
          isSmallestGridPointGE F e2.UTCValue I now)) := by
  have hstart : ∀ e2 : Epoch, e2.wellFormed →
      ∃ F, createTimeInterval 1 I e2 now = some F ∧ isGridPoint F e2.UTCValue I ∧
        now ≤ F ∧ F ≤ now + I ∧
        (¬ isGridPoint now e2.UTCValue I →
          isSmallestGridPointGE F e2.UTCValue I now) := by
    intro e2 he2
    refine ⟨nextGridPoint now I e2.UTCValue,
      createTimeInterval_start 1 I e2 now (by omega) hI hconv hday he2,
      nextGridPoint_isGrid now I e2.UTCValue,
      (nextGridPoint_bounds hI).1, (nextGridPoint_bounds hI).2, ?_⟩
    intro hnot
    exact ⟨nextGridPoint_isGrid now I e2.UTCValue, (nextGridPoint_bounds hI).1,
      grid_window_smallest hI (nextGridPoint_isGrid now I e2.UTCValue)
        (nextGridPoint_bounds hI).1 (nextGridPoint_bounds hI).2 hnot⟩
  constructor
  · exact hstart e he
  · intro hgrid
    have he2 : (createEpoch e.hrs e.mins now).wellFormed :=
      createEpoch_wellFormed e.hrs e.mins now he.1 he.2.1 he.2.2.1 he.2.2.2.1
    simp only [customIntervalStep]
    by_cases hb1 : t ≤ now
    · rw [if_pos hb1]
      by_cases hb2 : t + I < now
      · rw [if_pos hb2]
        obtain ⟨F, hF, h1, h2, h3, h4⟩ := hstart (createEpoch e.hrs e.mins now) he2
        rw [hF]
        exact ⟨F, createEpoch e.hrs e.mins now, 0, rfl, he2, h1, h2, h3, h4⟩
      · rw [if_neg hb2]
        obtain ⟨k, hk⟩ := hgrid
        have hgrid2 : isGridPoint (t + I) e.UTCValue I := ⟨k + 1, by rw [hk]; ring⟩
        rw [adjustIntervalTime_fixed 1 (t + I) I e now (by omega) hI hconv hday
          he hgrid2 (by omega)]
        refine ⟨t + I, e, 1, rfl, he, hgrid2, by omega, by omega, ?_⟩
        intro hnot
        exact ⟨hgrid2, by omega,
          grid_window_smallest hI hgrid2 (by omega) (by omega) hnot⟩
    · rw [if_neg hb1]
      by_cases hb3 : I < t - now
      · rw [if_pos hb3]
        obtain ⟨F, hF, h1, h2, h3, h4⟩ := hstart (createEpoch e.hrs e.mins now) he2
        rw [hF]
        exact ⟨F, createEpoch e.hrs e.mins now, 0, rfl, he2, h1, h2, h3, h4⟩
      · rw [if_neg hb3]
        refine ⟨t, e, 0, rfl, he, hgrid, by omega, by omega, ?_⟩
        intro hnot
        exact ⟨hgrid, by omega,
          grid_window_smallest hI hgrid (by omega) (by omega) hnot⟩

/-- C3 witness: the amended invariant instantiated with a one-hour
interval, anchor 00:00 on the epoch day, observation instant 00:30, and
the grid-point state 01:00. -/
theorem c3_invariant_witness :
    (∃ F, createTimeInterval 1 (60 * conversionFactor) ⟨0, 0, 0⟩ (30 * conversionFactor) =
        some F ∧ isGridPoint F (0 : ℤ) (60 * conversionFactor) ∧
        30 * conversionFactor ≤ F ∧ F ≤ 30 * conversionFactor + 60 * conversionFactor ∧
        (¬ isGridPoint (30 * conversionFactor) (0 : ℤ) (60 * conversionFactor) →
          isSmallestGridPointGE F 0 (60 * conversionFactor) (30 * conversionFactor))) ∧
    (isGridPoint (60 * conversionFactor) (0 : ℤ) (60 * conversionFactor) →
      ∃ F e2 c, customIntervalStep 1 (60 * conversionFactor) (60 * conversionFactor)
          ⟨0, 0, 0⟩ (30 * conversionFactor) = some (F, e2, c) ∧
        e2.wellFormed ∧ isGridPoint F e2.UTCValue (60 * conversionFactor) ∧
        30 * conversionFactor ≤ F ∧ F ≤ 30 * conversionFactor + 60 * conversionFactor ∧
        (¬ isGridPoint (30 * conversionFactor) e2.UTCValue (60 * conversionFactor) →
          isSmallestGridPointGE F e2.UTCValue (60 * conversionFactor)
            (30 * conversionFactor))) :=
  c3_invariant (60 * conversionFactor) ⟨0, 0, 0⟩ (30 * conversionFactor)
    (60 * conversionFactor) (by decide) ⟨60, by decide⟩ ⟨24, by decide⟩
    ⟨by decide, by decide, by decide, by decide, by decide⟩

/-- C4: the claim is stated for `now ≥ nextFireInstant + interval`, but at
equality the handler advances to `nextFireInstant + interval = now`, takes
the on-time branch, and invokes the callback once — it does not rebuild
and does not invoke it zero times.  Anchor 00:00, interval one minute,
nextFireInstant 00:01, observed instant 00:02. -/
theorem c4_counterexample :
    conversionFactor + conversionFactor ≤ 2 * conversionFactor ∧
      customIntervalStep 1 conversionFactor conversionFactor ⟨0, 0, 0⟩
          (2 * conversionFactor) =
        some (2 * conversionFactor, ⟨0, 0, 0⟩, 1) := by
  constructor <;> decide

/-- C4 (amended): whenever the expiry handler observes
`now > nextFireInstant + interval` (strictly), it rebuilds the schedule
from a fresh epoch derived from the stored anchor hour and minute at the
observed instant, and the callback is invoked zero times. -/
theorem c4_forward_jump (fuel : Nat) (I t : ℤ) (e : Epoch) (now : ℤ)
    (hI : 0 < I) (h : t + I < now) :
    customIntervalStep fuel I t e now =
      (createTimeInterval fuel I (createEpoch e.hrs e.mins now) now).map
        (fun u => (u, createEpoch e.hrs e.mins now, 0)) := by
  unfold customIntervalStep
  rw [if_pos (by omega : t ≤ now), if_pos h]

/-- C4 witness: the amended rebuild equation at interval one minute,
nextFireInstant 00:00 and observed instant 00:02. -/
theorem c4_forward_jump_witness :
    (0 : ℤ) < conversionFactor ∧ (0 : ℤ) + conversionFactor < 2 * conversionFactor ∧
      customIntervalStep 1 conversionFactor 0 ⟨0, 0, 0⟩ (2 * conversionFactor) =
        (createTimeInterval 1 conversionFactor (createEpoch 0 0 (2 * conversionFactor))
            (2 * conversionFactor)).map
          (fun u => (u, createEpoch 0 0 (2 * conversionFactor), 0)) :=
  ⟨by decide, by decide,
    c4_forward_jump 1 conversionFactor 0 ⟨0, 0, 0⟩ (2 * conversionFactor)
      (by decide) (by decide)⟩

/-- C5: whenever the expiry handler observes
`now < nextFireInstant − interval`, it recomputes the epoch from the
stored anchor hour and minute at the observed instant, recomputes the
next fire instant fresh from it, and the callback is invoked zero
times. -/
theorem c5_backward_jump (fuel : Nat) (I t : ℤ) (e : Epoch) (now : ℤ)
    (hI : 0 < I) (h : now < t - I) :
    customIntervalStep fuel I t e now =
      (createTimeInterval fuel I (createEpoch e.hrs e.mins now) now).map
        (fun u => (u, createEpoch e.hrs e.mins now, 0)) := by
  unfold customIntervalStep
  rw [if_neg (by omega : ¬ t ≤ now), if_pos (by omega : I < t - now)]

/-- C5 witness: the rebuild equation at interval one minute,
nextFireInstant 00:10 and observed instant 00:01. -/
theorem c5_backward_jump_witness :
    (0 : ℤ) < conversionFactor ∧
      conversionFactor < 10 * conversionFactor - conversionFactor ∧
      customIntervalStep 1 conversionFactor (10 * conversionFactor) ⟨0, 0, 0⟩
          conversionFactor =
        (createTimeInterval 1 conversionFactor (createEpoch 0 0 conversionFactor)
            conversionFactor).map
          (fun u => (u, createEpoch 0 0 conversionFactor, 0)) :=
  ⟨by decide, by decide,
    c5_backward_jump 1 conversionFactor (10 * conversionFactor) ⟨0, 0, 0⟩
      conversionFactor (by decide) (by decide)⟩

/-- C6: when the interval is a whole number of days
(`interval mod nsInADay = 0`), the compensator computes the anchor hour
and minute as the correct time and the rewritten candidate carries exactly
the anchor hour and minute as its wall-clock time, for every candidate
instant and every in-range anchor. -/
theorem c6_whole_day_time (t I : ℤ) (e : Epoch) (h : I.tmod nsInADay = 0)
    (h1 : 0 ≤ e.hrs) (h2 : e.hrs < 24) (h3 : 0 ≤ e.mins) (h4 : e.mins < 60) :
    correctIntervalTime t I e = ⟨e.hrs, e.mins⟩ ∧
      hourOf (adjustRewrite t I e) = e.hrs ∧
      minuteOf (adjustRewrite t I e) = e.mins := by
  have hbranch : correctIntervalTime t I e = ⟨e.hrs, e.mins⟩ := by
    unfold correctIntervalTime
    rw [h, if_neg (lt_irrefl 0)]
  have hemod : (dayStart t + convertTimeToNs e.hrs e.mins) % nsInADay =
      convertTimeToNs e.hrs e.mins :=
    dayStart_add_emod t _ (convertTimeToNs_nonneg h1 h3)
      (convertTimeToNs_lt_day h2 h4)
  have hdiv : convertTimeToNs e.hrs e.mins / conversionFactor = 60 * e.hrs + e.mins := by
    unfold convertTimeToNs
    exact Int.mul_ediv_cancel _ (ne_of_gt conversionFactor_pos)
  refine ⟨hbranch, ?_, ?_⟩
  · rw [adjustRewrite_def, hbranch]
    show hourOf (dayStart t + convertTimeToNs e.hrs e.mins) = e.hrs
    unfold hourOf
    rw [hemod, hdiv]
    have hswap : 60 * e.hrs + e.mins = e.mins + e.hrs * 60 := by ring
    rw [hswap, Int.add_mul_ediv_right e.mins e.hrs (by norm_num : (60 : ℤ) ≠ 0),
      Int.ediv_eq_zero_of_lt h3 h4]
    ring
  · rw [adjustRewrite_def, hbranch]
    show minuteOf (dayStart t + convertTimeToNs e.hrs e.mins) = e.mins
    unfold minuteOf
    rw [hemod, hdiv]
    have hswap : 60 * e.hrs + e.mins = e.mins + 60 * e.hrs := by ring
    rw [hswap, Int.add_mul_emod_self_left]
    exact Int.emod_eq_of_lt h3 h4

/-- C6 witness: a one-day interval with anchor 05:30 and an arbitrary
candidate instant 98765 minutes past the epoch. -/
theorem c6_whole_day_time_witness :
    nsInADay.tmod nsInADay = 0 ∧
      (correctIntervalTime (98765 * conversionFactor) nsInADay ⟨0, 5, 30⟩ =
          ⟨5, 30⟩ ∧
        hourOf (adjustRewrite (98765 * conversionFactor) nsInADay ⟨0, 5, 30⟩) = 5 ∧
        minuteOf (adjustRewrite (98765 * conversionFactor) nsInADay ⟨0, 5, 30⟩) = 30) :=
  ⟨by decide,
    c6_whole_day_time (98765 * conversionFactor) nsInADay ⟨0, 5, 30⟩
      (by decide) (by decide) (by decide) (by decide) (by decide)⟩

end DailyIntervals
